import Mathlib

/-!
Verlet particle simulation (`src/components/Simulation.jsx`)

A shallow embedding of the physics core of the simulation: the `Particle`
class (`constructor`, `applyForce`, `update`), the pairwise collision solver
`solveCollisions`, and the boundary handling of `animate`.

JavaScript numbers are modelled in two ways.  The main model takes them as
elements of an arbitrary linearly ordered field `α` (exact arithmetic:
rounding, infinities and NaN are abstracted away); its definitions are
computable and can be evaluated at `α = ℚ`, and the square root used by the
collision solver is a parameter `sqrt : α → α`, which the theorems about
distances instantiate with `Real.sqrt`.  The namespace `Binary64` repeats the
operations with the rounding of IEEE 754 binary64 arithmetic after every
operation; it decides the statements whose truth depends on that rounding.
-/

namespace Verlet

/-- A pair of coordinates, the shape of `pos`, `prev` and `acc`. -/
structure Vec (α : Type) where
  x : α
  y : α
deriving DecidableEq, Repr

/-- The fields of a `Particle` object. -/
structure Particle (α : Type) where
  pos : Vec α
  prev : Vec α
  acc : Vec α
deriving DecidableEq, Repr

section Model

variable {α : Type} [LinearOrderedField α]

/-- The constant `radius` of the effect body. -/
def radius : α := 7

/-- The constant `diameter = radius * 2`. -/
def diameter : α := radius * 2

/-- The constant `dt` of the effect body. -/
def dt : α := 1

/-- The constant `maxSpeed` local to `update`. -/
def maxSpeed : α := 35

/-- The constructor `new Particle(x, y)`; `r1` and `r2` are the values returned
by the two `Math.random()` calls, in evaluation order. -/
def Particle.constructor (x y r1 r2 : α) : Particle α :=
  { pos := ⟨x, y⟩
    prev := ⟨x - (r1 * 4 - 2), y - (r2 * 4 - 2)⟩
    acc := ⟨0, 0⟩ }

/-- The method `applyForce(x, y)`. -/
def Particle.applyForce (p : Particle α) (x y : α) : Particle α :=
  { p with acc := ⟨p.acc.x + x, p.acc.y + y⟩ }

/-- The method `update(dt)`, in exact arithmetic (`Binary64.update` is the same
method with every operation rounded). -/
def Particle.update (p : Particle α) (dt : α) : Particle α :=
  let vx := p.pos.x - p.prev.x
  let vy := p.pos.y - p.prev.y
  let vx := vx * 0.999
  let vy := vy * 0.999
  let vx := max (-maxSpeed) (min maxSpeed vx)
  let vy := max (-maxSpeed) (min maxSpeed vy)
  { pos := ⟨p.pos.x + (vx + p.acc.x * dt * dt), p.pos.y + (vy + p.acc.y * dt * dt)⟩
    prev := ⟨p.pos.x, p.pos.y⟩
    acc := ⟨0, 0⟩ }

/-- The body of the innermost loop of `solveCollisions` for the two particle
objects `p1 = particles[i]` and `p2 = particles[j]`; `sqrt` stands for
`Math.sqrt`. -/
def resolvePair (sqrt : α → α) (p1 p2 : Particle α) : Particle α × Particle α :=
  let dx := p2.pos.x - p1.pos.x
  let dy := p2.pos.y - p1.pos.y
  let dist := sqrt (dx * dx + dy * dy)
  if dist = 0 then (p1, p2)
  else if dist < diameter then
    let overlap := diameter - dist
    let nx := dx / dist
    let ny := dy / dist
    let push := overlap * 0.5
    let p1 := { p1 with pos := ⟨p1.pos.x - nx * push, p1.pos.y - ny * push⟩ }
    let p2 := { p2 with pos := ⟨p2.pos.x + nx * push, p2.pos.y + ny * push⟩ }
    let damping : α := 0.98
    let p1 := { p1 with prev := ⟨p1.pos.x + (p1.prev.x - p1.pos.x) * damping,
                                 p1.pos.y + (p1.prev.y - p1.pos.y) * damping⟩ }
    let p2 := { p2 with prev := ⟨p2.pos.x + (p2.prev.x - p2.pos.x) * damping,
                                 p2.pos.y + (p2.prev.y - p2.pos.y) * damping⟩ }
    (p1, p2)
  else (p1, p2)

/-- One iteration of the `j` loop: read `particles[i]` and `particles[j]`,
run the loop body on them and store both objects back. -/
def collideAt (sqrt : α → α) (particles : List (Particle α)) (i j : Nat) :
    List (Particle α) :=
  match particles[i]?, particles[j]? with
  | some p1, some p2 =>
    let r := resolvePair sqrt p1 p2
    (particles.set i r.1).set j r.2
  | _, _ => particles

/-- The loop `for (let j = i + 1; j < particles.length; j++)`. -/
def collideFrom (sqrt : α → α) (particles : List (Particle α)) (i : Nat) :
    List (Particle α) :=
  (List.range' (i + 1) (particles.length - (i + 1))).foldl
    (fun ps j => collideAt sqrt ps i j) particles

/-- The loop `for (let i = 0; i < particles.length; i++)`: one relaxation pass. -/
def collisionPass (sqrt : α → α) (particles : List (Particle α)) : List (Particle α) :=
  (List.range particles.length).foldl (fun ps i => collideFrom sqrt ps i) particles

/-- The function `solveCollisions`: the loop `for (let k = 0; k < 3; k++)`, in
exact arithmetic (`Binary64.solveCollisions` is the same function with every
operation rounded). -/
def solveCollisions (sqrt : α → α) (particles : List (Particle α)) : List (Particle α) :=
  (List.range 3).foldl (fun ps _ => collisionPass sqrt ps) particles

/-- The body of the second `particles.forEach` of `animate` (floor and walls),
without the drawing calls; `width` and `height` are `canvas.width` and
`canvas.height`, `gravity` is `gravityRef.current`. -/
def boundary (width height gravity : α) (p : Particle α) : Particle α :=
  let vx := p.pos.x - p.prev.x
  let vy := p.pos.y - p.prev.y
  let p :=
    if p.pos.y > height - radius then
      let p := { p with pos := ⟨p.pos.x, height - radius⟩ }
      let p := { p with prev := ⟨p.prev.x, p.pos.y - vy * -0.6⟩ }
      let p := { p with prev := ⟨p.pos.x - vx * 0.85, p.prev.y⟩ }
      if |vy| < 0.1 ∧ gravity < 0.05 then
        { p with prev := ⟨p.prev.x, p.pos.y⟩ }
      else p
    else p
  let p :=
    if p.pos.x > width - radius then
      let p := { p with pos := ⟨width - radius, p.pos.y⟩ }
      { p with prev := ⟨p.pos.x - vx * -0.7, p.prev.y⟩ }
    else p
  let p :=
    if p.pos.x < radius then
      let p := { p with pos := ⟨radius, p.pos.y⟩ }
      { p with prev := ⟨p.pos.x - vx * -0.7, p.prev.y⟩ }
    else p
  p

/-- The state change of one call of `animate` (one frame tick): gravity and
integration, collisions, boundaries. -/
def animate (sqrt : α → α) (width height gravity : α) (particles : List (Particle α)) :
    List (Particle α) :=
  let particles := particles.map (fun p => (p.applyForce 0 gravity).update dt)
  let particles := solveCollisions sqrt particles
  particles.map (boundary width height gravity)

/-- The listener `handleClick`: `x`, `y` are `e.clientX`, `e.clientY`, and
`r1`, `r2` the two random draws of the constructor. -/
def handleClick (particles : List (Particle α)) (x y r1 r2 : α) : List (Particle α) :=
  particles ++ [Particle.constructor x y r1 r2]

/-- The population built by `for (let i = 0; i < 40; i++)`; `rnd k` is the value
of the `k`-th call of `Math.random()`. -/
def initialParticles (width height : α) (rnd : Nat → α) : List (Particle α) :=
  (List.range 40).map fun i =>
    Particle.constructor (rnd (4 * i) * width) (rnd (4 * i + 1) * (height / 2))
      (rnd (4 * i + 2)) (rnd (4 * i + 3))

/-- The value `Math.sqrt(vx * vx + vy * vy)` for the velocity `pos - prev`. -/
def Particle.speed (sqrt : α → α) (p : Particle α) : α :=
  let vx := p.pos.x - p.prev.x
  let vy := p.pos.y - p.prev.y
  sqrt (vx * vx + vy * vy)

/-- The events that change the particle collection: a frame tick (with the
canvas size and gravity read during that tick) and a click. -/
inductive Event (α : Type) where
  | frame (width height gravity : α)
  | click (x y r1 r2 : α)

/-- The effect of one event on the particle collection. -/
def step (sqrt : α → α) (particles : List (Particle α)) : Event α → List (Particle α)
  | .frame width height gravity => animate sqrt width height gravity particles
  | .click x y r1 r2 => handleClick particles x y r1 r2

/-- The particle collection after a sequence of events. -/
def run (sqrt : α → α) (particles : List (Particle α)) (events : List (Event α)) :
    List (Particle α) :=
  events.foldl (step sqrt) particles

/-- Every particle of the collection has zero accumulated force. -/
def AccZero (particles : List (Particle α)) : Prop :=
  ∀ p ∈ particles, p.acc = ⟨0, 0⟩

/-- The value `dist` computed by the loop body of `solveCollisions` for the
pair `(p1, p2)`: the distance of the two centres. -/
def centreDistance (sqrt : α → α) (p1 p2 : Particle α) : α :=
  let dx := p2.pos.x - p1.pos.x
  let dy := p2.pos.y - p1.pos.y
  sqrt (dx * dx + dy * dy)

/-- Whether an event is a click (a spawn). -/
def Event.isClick : Event α → Bool
  | .frame _ _ _ => false
  | .click _ _ _ _ => true

/-- The colour `hsl(200, 100%, L%)` that the second `particles.forEach` of
`animate` assigns to `ctx.fillStyle` for the particle `p` entering the loop
body, as (hue, saturation, lightness): `vx` and `vy` are read at the top of the
body, `speed` and the template string are evaluated after the wall handling. -/
def fillStyle (sqrt : α → α) (p : Particle α) : α × α × α :=
  let vx := p.pos.x - p.prev.x
  let vy := p.pos.y - p.prev.y
  let speed := sqrt (vx * vx + vy * vy)
  (200, 100, 55 + speed * 4)

end Model

/-!
The same operations on binary64 numbers.  A finite binary64 number is given by
its exact rational value; every arithmetic operation of the source is followed
by the rounding `nearest`, and a decimal constant of the source stands for the
binary64 number nearest to it.
-/

namespace Binary64

/-- The power `2 ^ e` for an integer exponent. -/
def pow2 (e : ℤ) : ℚ :=
  if 0 ≤ e then ((2 ^ e.toNat : ℕ) : ℚ) else 1 / ((2 ^ (-e).toNat : ℕ) : ℚ)

/-- The number of binary digits of `n`, given at least that many units of fuel. -/
def bitLength : ℕ → ℕ → ℕ
  | 0, _ => 0
  | fuel + 1, n => if n = 0 then 0 else bitLength fuel (n / 2) + 1

/-- The binary exponent of a positive rational `q`: the `e` with
`2 ^ e ≤ q < 2 ^ (e + 1)`. -/
def exponent (q : ℚ) : ℤ :=
  let e : ℤ := (bitLength q.num.natAbs q.num.natAbs : ℤ) - (bitLength q.den q.den : ℤ)
  if pow2 e ≤ q then e else e - 1

/-- Rounding to the nearest integer, a tie going to the even one. -/
def roundHalfEven (x : ℚ) : ℤ :=
  let f := Rat.floor x
  let r := x - f
  if r < 1 / 2 then f
  else if 1 / 2 < r then f + 1
  else if f % 2 = 0 then f else f + 1

/-- The binary64 number nearest to `q` (53 significant bits, ties to even,
gradual underflow below `2 ^ (-1022)`); values beyond the binary64 range are
not modelled. -/
def nearest (q : ℚ) : ℚ :=
  if q = 0 then 0
  else
    let e := max (exponent |q|) (-1022)
    let u := pow2 (e - 52)
    (roundHalfEven (q / u) : ℚ) * u

/-- The largest `r` with `r * r ≤ n` among the `r` below `2 ^ bits`. -/
def isqrt (n : ℕ) : ℕ → ℕ → ℕ
  | 0, r => r
  | bits + 1, r => if (r + 2 ^ bits) * (r + 2 ^ bits) ≤ n then isqrt n bits (r + 2 ^ bits)
      else isqrt n bits r

/-- The operator `+` of two numbers. -/
def fadd (a b : ℚ) : ℚ := nearest (a + b)

/-- The operator `-` of two numbers. -/
def fsub (a b : ℚ) : ℚ := nearest (a - b)

/-- The operator `*` of two numbers. -/
def fmul (a b : ℚ) : ℚ := nearest (a * b)

/-- The operator `/` of two numbers, the divisor not zero. -/
def fdiv (a b : ℚ) : ℚ := nearest (a / b)

/-- The function `Math.sqrt` on a number that is not negative: the binary64
number nearest to the square root. -/
def fsqrt (q : ℚ) : ℚ :=
  if q ≤ 0 then 0
  else
    let e := exponent q
    let h := e / 2
    let u := pow2 (h - 53)
    let x := q / (u * u)
    let n := (Rat.floor x).toNat
    let s := isqrt n (bitLength n n / 2 + 1) 0
    nearest (if x = ((s * s : ℕ) : ℚ) then (s : ℚ) * u else ((s : ℚ) + 1 / 2) * u)


/-- The method `applyForce(x, y)` on binary64 numbers. -/
def applyForce (p : Particle ℚ) (x y : ℚ) : Particle ℚ :=
  { p with acc := ⟨fadd p.acc.x x, fadd p.acc.y y⟩ }

/-- The method `update(dt)` on binary64 numbers. -/
def update (p : Particle ℚ) (dt : ℚ) : Particle ℚ :=
  let vx := fsub p.pos.x p.prev.x
  let vy := fsub p.pos.y p.prev.y
  let vx := fmul vx (nearest 0.999)
  let vy := fmul vy (nearest 0.999)
  let vx := max (-maxSpeed) (min maxSpeed vx)
  let vy := max (-maxSpeed) (min maxSpeed vy)
  { pos := ⟨fadd p.pos.x (fadd vx (fmul (fmul p.acc.x dt) dt)),
            fadd p.pos.y (fadd vy (fmul (fmul p.acc.y dt) dt))⟩
    prev := ⟨p.pos.x, p.pos.y⟩
    acc := ⟨0, 0⟩ }

/-- The body of the innermost loop of `solveCollisions` on binary64 numbers. -/
def resolvePair (p1 p2 : Particle ℚ) : Particle ℚ × Particle ℚ :=
  let dx := fsub p2.pos.x p1.pos.x
  let dy := fsub p2.pos.y p1.pos.y
  let dist := fsqrt (fadd (fmul dx dx) (fmul dy dy))
  if dist = 0 then (p1, p2)
  else if dist < diameter then
    let overlap := fsub diameter dist
    let nx := fdiv dx dist
    let ny := fdiv dy dist
    let push := fmul overlap (nearest 0.5)
    let p1 := { p1 with pos := ⟨fsub p1.pos.x (fmul nx push), fsub p1.pos.y (fmul ny push)⟩ }
    let p2 := { p2 with pos := ⟨fadd p2.pos.x (fmul nx push), fadd p2.pos.y (fmul ny push)⟩ }
    let damping : ℚ := nearest 0.98
    let p1 := { p1 with prev := ⟨fadd p1.pos.x (fmul (fsub p1.prev.x p1.pos.x) damping),
                                 fadd p1.pos.y (fmul (fsub p1.prev.y p1.pos.y) damping)⟩ }
    let p2 := { p2 with prev := ⟨fadd p2.pos.x (fmul (fsub p2.prev.x p2.pos.x) damping),
                                 fadd p2.pos.y (fmul (fsub p2.prev.y p2.pos.y) damping)⟩ }
    (p1, p2)
  else (p1, p2)

/-- One iteration of the `j` loop on binary64 numbers. -/
def collideAt (particles : List (Particle ℚ)) (i j : Nat) : List (Particle ℚ) :=
  match particles[i]?, particles[j]? with
  | some p1, some p2 =>
    let r := resolvePair p1 p2
    (particles.set i r.1).set j r.2
  | _, _ => particles

/-- The loop `for (let j = i + 1; j < particles.length; j++)` on binary64
numbers. -/
def collideFrom (particles : List (Particle ℚ)) (i : Nat) : List (Particle ℚ) :=
  (List.range' (i + 1) (particles.length - (i + 1))).foldl
    (fun ps j => collideAt ps i j) particles

/-- The loop `for (let i = 0; i < particles.length; i++)` on binary64 numbers. -/
def collisionPass (particles : List (Particle ℚ)) : List (Particle ℚ) :=
  (List.range particles.length).foldl (fun ps i => collideFrom ps i) particles

/-- The function `solveCollisions` on binary64 numbers. -/
def solveCollisions (particles : List (Particle ℚ)) : List (Particle ℚ) :=
  (List.range 3).foldl (fun ps _ => collisionPass ps) particles

/-- The floor and wall handling of `animate` on binary64 numbers. -/
def boundary (width height gravity : ℚ) (p : Particle ℚ) : Particle ℚ :=
  let vx := fsub p.pos.x p.prev.x
  let vy := fsub p.pos.y p.prev.y
  let p :=
    if p.pos.y > fsub height radius then
      let p := { p with pos := ⟨p.pos.x, fsub height radius⟩ }
      let p := { p with prev := ⟨p.prev.x, fsub p.pos.y (fmul vy (-nearest 0.6))⟩ }
      let p := { p with prev := ⟨fsub p.pos.x (fmul vx (nearest 0.85)), p.prev.y⟩ }
      if |vy| < nearest 0.1 ∧ gravity < nearest 0.05 then
        { p with prev := ⟨p.prev.x, p.pos.y⟩ }
      else p
    else p
  let p :=
    if p.pos.x > fsub width radius then
      let p := { p with pos := ⟨fsub width radius, p.pos.y⟩ }
      { p with prev := ⟨fsub p.pos.x (fmul vx (-nearest 0.7)), p.prev.y⟩ }
    else p
  let p :=
    if p.pos.x < radius then
      let p := { p with pos := ⟨radius, p.pos.y⟩ }
      { p with prev := ⟨fsub p.pos.x (fmul vx (-nearest 0.7)), p.prev.y⟩ }
    else p
  p

/-- The state change of one call of `animate` on binary64 numbers. -/
def animate (width height gravity : ℚ) (particles : List (Particle ℚ)) :
    List (Particle ℚ) :=
  let particles := particles.map (fun p => update (applyForce p 0 gravity) dt)
  let particles := solveCollisions particles
  particles.map (boundary width height gravity)

/-- The value `Math.sqrt(vx * vx + vy * vy)` on binary64 numbers. -/
def speed (p : Particle ℚ) : ℚ :=
  let vx := fsub p.pos.x p.prev.x
  let vy := fsub p.pos.y p.prev.y
  fsqrt (fadd (fmul vx vx) (fmul vy vy))

end Binary64

/-- A property of the collection that every loop iteration keeps is kept by
the whole loop. -/
theorem foldl_invariant {γ β : Type} (Q : γ → Prop) (f : γ → β → γ) (l : List β)
    (hf : ∀ s, ∀ b ∈ l, Q s → Q (f s b)) (s : γ) (h : Q s) : Q (l.foldl f s) := by
  induction l generalizing s with
  | nil => simpa using h
  | cons b l ih =>
    simp only [List.foldl_cons]
    exact ih (fun s c hc => hf s c (List.mem_cons_of_mem b hc)) (f s b)
      (hf s b (List.mem_cons_self b l) h)

/-- A property of the elements that every loop iteration keeps is kept by the
whole loop. -/
theorem foldl_forall {γ β : Type} (P : γ → Prop) (f : List γ → β → List γ)
    (hf : ∀ ps b, (∀ p ∈ ps, P p) → ∀ p ∈ f ps b, P p)
    (l : List β) (ps : List γ) (h : ∀ p ∈ ps, P p) :
    ∀ p ∈ l.foldl f ps, P p :=
  foldl_invariant (fun ps => ∀ p ∈ ps, P p) f l (fun ps b _ => hf ps b) ps h

/-- The sum of `f` over a list after one element is replaced. -/
theorem sum_map_set {γ α : Type} [Field α] (f : γ → α) (l : List γ) (i : Nat) (a b : γ)
    (h : l[i]? = some b) : ((l.set i a).map f).sum = (l.map f).sum - f b + f a := by
  induction l generalizing i with
  | nil => simp at h
  | cons c l ih =>
    cases i with
    | zero =>
      simp only [List.getElem?_cons_zero, Option.some.injEq] at h
      subst h
      simp only [List.set_cons_zero, List.map_cons, List.sum_cons]
      ring
    | succ i =>
      simp only [List.getElem?_cons_succ] at h
      simp only [List.set_cons_succ, List.map_cons, List.sum_cons, ih i h]
      ring

section Lemmas

variable {α : Type} [LinearOrderedField α]

theorem abs_clamp_le (v : α) : |max (-maxSpeed) (min maxSpeed v)| ≤ (maxSpeed : α) := by
  have h35 : (0 : α) ≤ maxSpeed := by unfold maxSpeed; norm_num
  rw [abs_le]
  exact ⟨le_max_left _ _, max_le (by linarith) (min_le_left _ _)⟩

theorem resolvePair_acc (sqrt : α → α) (p1 p2 : Particle α) :
    (resolvePair sqrt p1 p2).1.acc = p1.acc ∧ (resolvePair sqrt p1 p2).2.acc = p2.acc := by
  unfold resolvePair
  simp only []
  split_ifs <;> exact ⟨rfl, rfl⟩

theorem boundary_acc (width height gravity : α) (p : Particle α) :
    (boundary width height gravity p).acc = p.acc := by
  unfold boundary
  simp only []
  split_ifs <;> rfl

/-- A property of single particles that the loop body keeps is kept by one
iteration of the `j` loop. -/
theorem collideAt_forall (sqrt : α → α) (P : Particle α → Prop)
    (hP : ∀ p1 p2, P p1 → P p2 →
      P (resolvePair sqrt p1 p2).1 ∧ P (resolvePair sqrt p1 p2).2)
    (ps : List (Particle α)) (i j : Nat) (h : ∀ p ∈ ps, P p) :
    ∀ p ∈ collideAt sqrt ps i j, P p := by
  unfold collideAt
  split
  · next p1 p2 h1 h2 =>
    have m1 : p1 ∈ ps := List.getElem?_mem h1
    have m2 : p2 ∈ ps := List.getElem?_mem h2
    have hr := hP p1 p2 (h p1 m1) (h p2 m2)
    intro p hp
    rcases List.mem_or_eq_of_mem_set hp with hp | rfl
    · rcases List.mem_or_eq_of_mem_set hp with hp | rfl
      · exact h p hp
      · exact hr.1
    · exact hr.2
  · exact h

theorem solveCollisions_forall (sqrt : α → α) (P : Particle α → Prop)
    (hP : ∀ p1 p2, P p1 → P p2 →
      P (resolvePair sqrt p1 p2).1 ∧ P (resolvePair sqrt p1 p2).2)
    (ps : List (Particle α)) (h : ∀ p ∈ ps, P p) :
    ∀ p ∈ solveCollisions sqrt ps, P p := by
  unfold solveCollisions
  refine foldl_forall P _ (fun ps _ h => ?_) _ ps h
  unfold collisionPass
  refine foldl_forall P _ (fun ps i h => ?_) _ ps h
  unfold collideFrom
  exact foldl_forall P _ (fun ps j h => collideAt_forall sqrt P hP ps i j h) _ ps h

theorem animate_accZero (sqrt : α → α) (width height gravity : α)
    (ps : List (Particle α)) : AccZero (animate sqrt width height gravity ps) := by
  unfold animate AccZero
  intro p hp
  simp only [List.mem_map] at hp
  obtain ⟨q, hq, rfl⟩ := hp
  rw [boundary_acc]
  refine solveCollisions_forall sqrt (fun p => p.acc = ⟨0, 0⟩) ?_ _ ?_ q hq
  · intro p1 p2 h1 h2
    have := resolvePair_acc sqrt p1 p2
    exact ⟨this.1.trans h1, this.2.trans h2⟩
  · intro p hp
    simp only [List.mem_map] at hp
    obtain ⟨r, _, rfl⟩ := hp
    rfl

theorem initialParticles_accZero (width height : α) (rnd : Nat → α) :
    AccZero (initialParticles width height rnd) := by
  unfold initialParticles AccZero
  intro p hp
  simp only [List.mem_map] at hp
  obtain ⟨i, _, rfl⟩ := hp
  rfl

theorem step_accZero (sqrt : α → α) (ps : List (Particle α)) (e : Event α)
    (h : AccZero ps) : AccZero (step sqrt ps e) := by
  cases e with
  | frame w hgt g => exact animate_accZero sqrt w hgt g ps
  | click x y r1 r2 =>
    intro p hp
    simp only [step, handleClick, List.mem_append, List.mem_singleton] at hp
    rcases hp with hp | rfl
    · exact h p hp
    · rfl

theorem run_accZero (sqrt : α → α) (ps : List (Particle α)) (es : List (Event α))
    (h : AccZero ps) : AccZero (run sqrt ps es) := by
  unfold run
  induction es generalizing ps with
  | nil => simpa using h
  | cons e es ih => simpa using ih (step sqrt ps e) (step_accZero sqrt ps e h)

end Lemmas

section Lemmas4

variable {α : Type} [LinearOrderedField α]

/-- The boundary step multiplies the horizontal velocity by `1`, `0.85` or
`-0.7`. -/
theorem boundary_vx_cases (width height gravity : α) (p : Particle α) :
    (boundary width height gravity p).pos.x - (boundary width height gravity p).prev.x
        = p.pos.x - p.prev.x ∨
    (boundary width height gravity p).pos.x - (boundary width height gravity p).prev.x
        = 0.85 * (p.pos.x - p.prev.x) ∨
    (boundary width height gravity p).pos.x - (boundary width height gravity p).prev.x
        = -0.7 * (p.pos.x - p.prev.x) := by
  unfold boundary
  simp only []
  split_ifs <;>
    first
    | (left; ring1)
    | (right; left; ring1)
    | (right; right; ring1)

/-- The boundary step multiplies the vertical velocity by `1`, `-0.6` or `0`. -/
theorem boundary_vy_cases (width height gravity : α) (p : Particle α) :
    (boundary width height gravity p).pos.y - (boundary width height gravity p).prev.y
        = p.pos.y - p.prev.y ∨
    (boundary width height gravity p).pos.y - (boundary width height gravity p).prev.y
        = -0.6 * (p.pos.y - p.prev.y) ∨
    (boundary width height gravity p).pos.y - (boundary width height gravity p).prev.y
        = 0 := by
  unfold boundary
  simp only []
  split_ifs <;>
    first
    | (left; ring1)
    | (right; left; ring1)
    | (right; right; ring1)

/-- The boundary step never enlarges either velocity component (squared). -/
theorem boundary_velocity_sq_le (width height gravity : α) (p : Particle α) :
    ((boundary width height gravity p).pos.x - (boundary width height gravity p).prev.x) ^ 2
      ≤ (p.pos.x - p.prev.x) ^ 2 ∧
    ((boundary width height gravity p).pos.y - (boundary width height gravity p).prev.y) ^ 2
      ≤ (p.pos.y - p.prev.y) ^ 2 := by
  have hx0 := sq_nonneg (p.pos.x - p.prev.x)
  have hy0 := sq_nonneg (p.pos.y - p.prev.y)
  constructor
  · rcases boundary_vx_cases width height gravity p with h | h | h <;> rw [h]
    · rw [mul_pow]; nlinarith
    · rw [mul_pow]; nlinarith
  · rcases boundary_vy_cases width height gravity p with h | h | h <;> rw [h]
    · rw [mul_pow]; nlinarith
    · nlinarith

theorem clamp_sq_le (v : α) : (max (-maxSpeed) (min maxSpeed v)) ^ 2 ≤ v ^ 2 := by
  have h35 : (0 : α) ≤ maxSpeed := by unfold maxSpeed; norm_num
  rw [sq_le_sq]
  rcases le_total v 0 with hv | hv
  · have h1 : min maxSpeed v = v := min_eq_right (hv.trans h35)
    rw [h1, abs_of_nonpos (max_le (by linarith) hv), abs_of_nonpos hv]
    exact neg_le_neg (le_max_right _ _)
  · have h1 : 0 ≤ min maxSpeed v := le_min h35 hv
    have h2 : max (-maxSpeed) (min maxSpeed v) = min maxSpeed v :=
      max_eq_right (by linarith)
    rw [h2, abs_of_nonneg h1, abs_of_nonneg hv]
    exact min_le_right _ _

/-- With no accumulated force and zero gravity, gravity application and
integration scale each squared velocity component by at most `0.999 ^ 2`. -/
theorem update_velocity_sq_le (p : Particle α) (hacc : p.acc = ⟨0, 0⟩) :
    (((p.applyForce 0 0).update dt).pos.x - ((p.applyForce 0 0).update dt).prev.x) ^ 2
      ≤ 0.998001 * (p.pos.x - p.prev.x) ^ 2 ∧
    (((p.applyForce 0 0).update dt).pos.y - ((p.applyForce 0 0).update dt).prev.y) ^ 2
      ≤ 0.998001 * (p.pos.y - p.prev.y) ^ 2 := by
  have hx := clamp_sq_le ((p.pos.x - p.prev.x) * 0.999)
  have hy := clamp_sq_le ((p.pos.y - p.prev.y) * 0.999)
  simp only [Particle.update, Particle.applyForce, hacc, dt, add_zero, zero_mul, mul_one,
    add_sub_cancel_left]
  constructor
  · calc _ ≤ ((p.pos.x - p.prev.x) * 0.999) ^ 2 := hx
      _ = 0.998001 * (p.pos.x - p.prev.x) ^ 2 := by ring
  · calc _ ≤ ((p.pos.y - p.prev.y) * 0.999) ^ 2 := hy
      _ = 0.998001 * (p.pos.y - p.prev.y) ^ 2 := by ring

theorem solveCollisions_singleton (sqrt : α → α) (p : Particle α) :
    solveCollisions sqrt [p] = [p] := by
  simp [solveCollisions, collisionPass, collideFrom, List.range_succ]

theorem animate_singleton (sqrt : α → α) (width height gravity : α) (p : Particle α) :
    animate sqrt width height gravity [p]
      = [boundary width height gravity ((p.applyForce 0 gravity).update dt)] := by
  simp [animate, solveCollisions_singleton]

end Lemmas4

section Lemmas5

variable {α : Type} [LinearOrderedField α]

theorem resolvePair_pos_sum (sqrt : α → α) (p1 p2 : Particle α) :
    (resolvePair sqrt p1 p2).1.pos.x + (resolvePair sqrt p1 p2).2.pos.x
      = p1.pos.x + p2.pos.x ∧
    (resolvePair sqrt p1 p2).1.pos.y + (resolvePair sqrt p1 p2).2.pos.y
      = p1.pos.y + p2.pos.y := by
  unfold resolvePair
  simp only []
  split_ifs <;> constructor <;> ring1

/-- One iteration of the `j` loop on two different indices keeps the sum of
any quantity that the loop body conserves for the pair. -/
theorem collideAt_sum (sqrt : α → α) (f : Particle α → α)
    (hf : ∀ p1 p2, f (resolvePair sqrt p1 p2).1 + f (resolvePair sqrt p1 p2).2 = f p1 + f p2)
    (ps : List (Particle α)) (i j : Nat) (hij : i ≠ j) :
    ((collideAt sqrt ps i j).map f).sum = (ps.map f).sum := by
  unfold collideAt
  split
  · next p1 p2 h1 h2 =>
    have h2' : (ps.set i (resolvePair sqrt p1 p2).1)[j]? = some p2 := by
      rw [List.getElem?_set_ne hij]; exact h2
    simp only []
    rw [sum_map_set f _ j _ p2 h2', sum_map_set f ps i _ p1 h1]
    linear_combination hf p1 p2
  · rfl

theorem solveCollisions_sum (sqrt : α → α) (f : Particle α → α)
    (hf : ∀ p1 p2, f (resolvePair sqrt p1 p2).1 + f (resolvePair sqrt p1 p2).2 = f p1 + f p2)
    (ps : List (Particle α)) :
    ((solveCollisions sqrt ps).map f).sum = (ps.map f).sum := by
  unfold solveCollisions
  refine foldl_invariant (fun qs => (qs.map f).sum = (ps.map f).sum) _ _
    (fun qs _ _ hq => ?_) ps rfl
  unfold collisionPass
  refine foldl_invariant (fun rs => (rs.map f).sum = (ps.map f).sum) _ _
    (fun rs i _ hr => ?_) qs hq
  unfold collideFrom
  refine foldl_invariant (fun ts => (ts.map f).sum = (ps.map f).sum) _ _
    (fun ts j hj ht => ?_) rs hr
  have hij : i ≠ j := by
    have := (List.mem_range'_1.mp hj).1
    omega
  simp only [collideAt_sum sqrt f hf ts i j hij, ht]

end Lemmas5

section Lemmas6

variable {α : Type} [LinearOrderedField α]

theorem collisionPass_pair (sqrt : α → α) (p1 p2 : Particle α) :
    collisionPass sqrt [p1, p2] = [(resolvePair sqrt p1 p2).1, (resolvePair sqrt p1 p2).2] := by
  simp [collisionPass, collideFrom, collideAt, List.range_succ, List.range'_succ]

theorem solveCollisions_pair (sqrt : α → α) (p1 p2 : Particle α) :
    solveCollisions sqrt [p1, p2] =
      collisionPass sqrt (collisionPass sqrt (collisionPass sqrt [p1, p2])) := by
  simp [solveCollisions, List.range_succ]

theorem resolvePair_of_dist_eq_zero (sqrt : α → α) (p1 p2 : Particle α)
    (h : centreDistance sqrt p1 p2 = 0) : resolvePair sqrt p1 p2 = (p1, p2) := by
  unfold centreDistance at h
  simp only [] at h
  unfold resolvePair
  simp only [h, if_true]

theorem resolvePair_of_not_lt (sqrt : α → α) (p1 p2 : Particle α)
    (h : ¬ centreDistance sqrt p1 p2 < diameter) : resolvePair sqrt p1 p2 = (p1, p2) := by
  unfold centreDistance at h
  simp only [] at h
  unfold resolvePair
  simp only [h, if_false, ite_self]

end Lemmas6

/-- After the loop body has resolved an overlapping pair, the two centres are
exactly `diameter` apart (over the reals). -/
theorem resolvePair_dist (p1 p2 : Particle ℝ)
    (h0 : 0 < centreDistance Real.sqrt p1 p2)
    (h1 : centreDistance Real.sqrt p1 p2 < diameter) :
    centreDistance Real.sqrt (resolvePair Real.sqrt p1 p2).1 (resolvePair Real.sqrt p1 p2).2
      = diameter := by
  unfold centreDistance at h0 h1 ⊢
  simp only [] at h0 h1 ⊢
  unfold resolvePair
  simp only [ne_of_gt h0, h1, if_true, if_false]
  set dx := p2.pos.x - p1.pos.x with hdx
  set dy := p2.pos.y - p1.pos.y with hdy
  set d := √(dx * dx + dy * dy) with hd
  have hdd : d * d = dx * dx + dy * dy :=
    Real.mul_self_sqrt (add_nonneg (mul_self_nonneg _) (mul_self_nonneg _))
  have hne : d ≠ 0 := ne_of_gt h0
  have hD : (0 : ℝ) ≤ diameter := by unfold diameter radius; norm_num
  have ex : p2.pos.x + dx / d * ((diameter - d) * 0.5) - (p1.pos.x - dx / d * ((diameter - d) * 0.5))
      = dx * diameter / d := by
    rw [hdx]; field_simp; ring
  have ey : p2.pos.y + dy / d * ((diameter - d) * 0.5) - (p1.pos.y - dy / d * ((diameter - d) * 0.5))
      = dy * diameter / d := by
    rw [hdy]; field_simp; ring
  rw [ex, ey]
  have e : dx * diameter / d * (dx * diameter / d) + dy * diameter / d * (dy * diameter / d)
      = diameter * diameter := by
    field_simp
    linear_combination (-(diameter * diameter)) * hdd
  rw [e]
  exact Real.sqrt_mul_self hD

section Lemmas11

variable {α : Type} [LinearOrderedField α]

/-- In floor contact the boundary step puts the particle on the floor line and
leaves it with vertical velocity `-0.6 * vy` or `0`. -/
theorem boundary_of_floor (width height gravity : α) (p : Particle α)
    (hfloor : p.pos.y > height - radius) :
    (boundary width height gravity p).pos.y = height - radius ∧
    ((boundary width height gravity p).pos.y - (boundary width height gravity p).prev.y
        = -0.6 * (p.pos.y - p.prev.y) ∨
     (boundary width height gravity p).pos.y - (boundary width height gravity p).prev.y = 0) := by
  unfold boundary
  simp only [hfloor, if_true]
  split_ifs <;> refine ⟨rfl, ?_⟩ <;> first | (left; ring1) | (right; ring1)

/-- One frame tick of a particle that lies on the floor line with a vertical
velocity between `-0.6 * gravity` and `0` leaves it in such a state. -/
theorem floor_tick (width height gravity : α) (p : Particle α) (hg : 0 < gravity)
    (hacc : p.acc = ⟨0, 0⟩) (hpos : p.pos.y = height - radius)
    (hlo : -0.6 * gravity ≤ p.pos.y - p.prev.y) (hhi : p.pos.y - p.prev.y ≤ 0) :
    (boundary width height gravity ((p.applyForce 0 gravity).update dt)).acc = ⟨0, 0⟩ ∧
    (boundary width height gravity ((p.applyForce 0 gravity).update dt)).pos.y
      = height - radius ∧
    -0.6 * gravity ≤
      (boundary width height gravity ((p.applyForce 0 gravity).update dt)).pos.y
        - (boundary width height gravity ((p.applyForce 0 gravity).update dt)).prev.y ∧
    (boundary width height gravity ((p.applyForce 0 gravity).update dt)).pos.y
        - (boundary width height gravity ((p.applyForce 0 gravity).update dt)).prev.y ≤ 0 := by
  have hc0 : max (-maxSpeed) (min maxSpeed ((p.pos.y - p.prev.y) * 0.999)) ≤ (0 : α) := by
    refine max_le (by unfold maxSpeed; norm_num) ((min_le_right _ _).trans ?_)
    nlinarith
  have hc1 : (p.pos.y - p.prev.y) * 0.999
      ≤ max (-maxSpeed) (min maxSpeed ((p.pos.y - p.prev.y) * 0.999)) := by
    refine le_max_of_le_right (le_min ?_ le_rfl)
    have : (0 : α) ≤ maxSpeed := by unfold maxSpeed; norm_num
    nlinarith
  have hpy : ((p.applyForce 0 gravity).update dt).pos.y
      = p.pos.y + (max (-maxSpeed) (min maxSpeed ((p.pos.y - p.prev.y) * 0.999)) + gravity) := by
    simp only [Particle.update, Particle.applyForce, hacc, dt, zero_add, mul_one]
  have hqy : ((p.applyForce 0 gravity).update dt).prev.y = p.pos.y := rfl
  have hfloor : ((p.applyForce 0 gravity).update dt).pos.y > height - radius := by
    rw [hpy, gt_iff_lt]
    linarith
  obtain ⟨h1, h2⟩ := boundary_of_floor width height gravity _ hfloor
  refine ⟨(boundary_acc _ _ _ _).trans rfl, h1, ?_, ?_⟩
  · rcases h2 with h2 | h2
    · rw [h2, hpy, hqy]; linarith
    · rw [h2]; linarith
  · rcases h2 with h2 | h2
    · rw [h2, hpy, hqy]; linarith
    · exact le_of_eq h2

theorem floor_iterate (sqrt : α → α) (width height gravity : α) (p : Particle α)
    (hg : 0 < gravity) (hacc : p.acc = ⟨0, 0⟩) (hpos : p.pos.y = height - radius)
    (hlo : -0.6 * gravity ≤ p.pos.y - p.prev.y) (hhi : p.pos.y - p.prev.y ≤ 0) (n : Nat) :
    ∃ q, (animate sqrt width height gravity)^[n] [p] = [q] ∧ q.acc = ⟨0, 0⟩ ∧
      q.pos.y = height - radius ∧ -0.6 * gravity ≤ q.pos.y - q.prev.y ∧
      q.pos.y - q.prev.y ≤ 0 := by
  induction n with
  | zero => exact ⟨p, rfl, hacc, hpos, hlo, hhi⟩
  | succ n ih =>
    obtain ⟨q, hq, h1, h2, h3, h4⟩ := ih
    refine ⟨_, ?_, floor_tick width height gravity q hg h1 h2 h3 h4⟩
    rw [Function.iterate_succ_apply', hq, animate_singleton]

theorem collideAt_length (sqrt : α → α) (ps : List (Particle α)) (i j : Nat) :
    (collideAt sqrt ps i j).length = ps.length := by
  unfold collideAt
  split <;> simp only [List.length_set]

theorem solveCollisions_length (sqrt : α → α) (ps : List (Particle α)) :
    (solveCollisions sqrt ps).length = ps.length := by
  unfold solveCollisions
  refine foldl_invariant (fun qs => qs.length = ps.length) _ _ (fun qs _ _ hq => ?_) ps rfl
  unfold collisionPass
  refine foldl_invariant (fun rs => rs.length = ps.length) _ _ (fun rs i _ hr => ?_) qs hq
  unfold collideFrom
  refine foldl_invariant (fun ts => ts.length = ps.length) _ _ (fun ts j _ ht => ?_) rs hr
  show (collideAt sqrt ts i j).length = ps.length
  rw [collideAt_length]
  exact ht

theorem animate_length (sqrt : α → α) (width height gravity : α) (ps : List (Particle α)) :
    (animate sqrt width height gravity ps).length = ps.length := by
  simp only [animate, List.length_map, solveCollisions_length]

theorem run_length (sqrt : α → α) (ps : List (Particle α)) (es : List (Event α)) :
    (run sqrt ps es).length = ps.length + es.countP Event.isClick := by
  unfold run
  induction es generalizing ps with
  | nil => simp
  | cons e es ih =>
    rw [List.foldl_cons, ih]
    cases e with
    | frame w h g => simp [step, animate_length, Event.isClick]
    | click x y r1 r2 =>
      simp [step, handleClick, Event.isClick, List.countP_cons]
      omega

end Lemmas11

/-- Replacing an element of a list by itself changes nothing. -/
theorem set_getElem?_self {γ : Type} (l : List γ) (i : Nat) (a : γ) (h : l[i]? = some a) :
    l.set i a = l := by
  induction l generalizing i with
  | nil => rfl
  | cons c l ih =>
    cases i with
    | zero =>
      simp only [List.getElem?_cons_zero, Option.some.injEq] at h
      rw [List.set_cons_zero, h]
    | succ i =>
      simp only [List.getElem?_cons_succ] at h
      rw [List.set_cons_succ, ih i h]

section Lemmas15

variable {α : Type} [LinearOrderedField α]

/-- The result of the loop body on a pair that it resolves. -/
theorem resolvePair_of_overlap (sqrt : α → α) (p1 p2 : Particle α)
    (h0 : centreDistance sqrt p1 p2 ≠ 0) (h1 : centreDistance sqrt p1 p2 < diameter) :
    (resolvePair sqrt p1 p2).1.pos.x - p1.pos.x
      = -((p2.pos.x - p1.pos.x) / centreDistance sqrt p1 p2
          * ((diameter - centreDistance sqrt p1 p2) * 0.5)) ∧
    (resolvePair sqrt p1 p2).1.pos.x - (resolvePair sqrt p1 p2).1.prev.x
      = 0.98 * ((resolvePair sqrt p1 p2).1.pos.x - p1.prev.x) ∧
    (resolvePair sqrt p1 p2).1.pos.y - (resolvePair sqrt p1 p2).1.prev.y
      = 0.98 * ((resolvePair sqrt p1 p2).1.pos.y - p1.prev.y) ∧
    (resolvePair sqrt p1 p2).2.pos.x - (resolvePair sqrt p1 p2).2.prev.x
      = 0.98 * ((resolvePair sqrt p1 p2).2.pos.x - p2.prev.x) ∧
    (resolvePair sqrt p1 p2).2.pos.y - (resolvePair sqrt p1 p2).2.prev.y
      = 0.98 * ((resolvePair sqrt p1 p2).2.pos.y - p2.prev.y) := by
  unfold centreDistance at h0 h1 ⊢
  simp only [] at h0 h1 ⊢
  unfold resolvePair
  simp only [h0, h1, if_true, if_false]
  and_intros <;> ring1

/-- One iteration of the `j` loop on a pair `i < j` of a list without overlap
changes nothing. -/
theorem collideAt_of_no_overlap (sqrt : α → α) (ps : List (Particle α))
    (h : ps.Pairwise fun p1 p2 => diameter ≤ centreDistance sqrt p1 p2)
    (i j : Nat) (hij : i < j) : collideAt sqrt ps i j = ps := by
  unfold collideAt
  split
  · next p1 p2 h1 h2 =>
    obtain ⟨hi, e1⟩ := List.getElem?_eq_some.mp h1
    obtain ⟨hj, e2⟩ := List.getElem?_eq_some.mp h2
    have hrel := List.pairwise_iff_getElem.mp h i j hi hj hij
    rw [e1, e2] at hrel
    have hres := resolvePair_of_not_lt sqrt p1 p2 (not_lt.mpr hrel)
    simp only [hres]
    rw [set_getElem?_self ps i p1 h1, set_getElem?_self ps j p2 h2]
  · rfl

end Lemmas15

/-- The distance of the centres `(0, 0)` and `(6, 8)` is `10`. -/
theorem centreDistance_six_eight (a b c d : Vec ℝ) :
    centreDistance Real.sqrt ⟨⟨0, 0⟩, a, b⟩ ⟨⟨6, 8⟩, c, d⟩ = 10 := by
  simp only [centreDistance]
  rw [show ((6 : ℝ) - 0) * (6 - 0) + (8 - 0) * (8 - 0) = 10 * 10 by norm_num]
  exact Real.sqrt_mul_self (by norm_num)

/-- The distance of the centres `(0, 0)` and `(30, 40)` is `50`. -/
theorem centreDistance_thirty_forty (a b c d : Vec ℝ) :
    centreDistance Real.sqrt ⟨⟨0, 0⟩, a, b⟩ ⟨⟨30, 40⟩, c, d⟩ = 50 := by
  simp only [centreDistance]
  rw [show ((30 : ℝ) - 0) * (30 - 0) + (40 - 0) * (40 - 0) = 50 * 50 by norm_num]
  exact Real.sqrt_mul_self (by norm_num)

section Lemmas14

variable {α : Type} [LinearOrderedField α]

/-- A particle that touches neither the floor nor a wall leaves the boundary
step unchanged. -/
theorem boundary_of_inside (width height gravity : α) (p : Particle α)
    (hfloor : ¬ p.pos.y > height - radius) (hright : ¬ p.pos.x > width - radius)
    (hleft : ¬ p.pos.x < radius) : boundary width height gravity p = p := by
  unfold boundary
  simp only [hfloor, hright, hleft, if_false]

/-- The positions that the boundary step can leave. -/
theorem boundary_pos_bounds (width height gravity : α) (p : Particle α)
    (hw : 2 * radius ≤ width) :
    radius ≤ (boundary width height gravity p).pos.x ∧
    (boundary width height gravity p).pos.x ≤ width - radius ∧
    (boundary width height gravity p).pos.y ≤ height - radius ∧
    ((boundary width height gravity p).pos.y = p.pos.y ∨
      (boundary width height gravity p).pos.y = height - radius) := by
  unfold boundary
  simp only []
  split_ifs <;> simp only [] at * <;> refine ⟨?_, ?_, ?_, ?_⟩ <;>
    first
    | trivial
    | linarith
    | (left; first | rfl | trivial)
    | (right; first | rfl | trivial)

end Lemmas14

section Claims

variable {α : Type} [LinearOrderedField α]

/-- C1 (as stated, refuted): a particle at rest with accumulated force `(0, 36)`
has vertical velocity `36 > 35` after `update(1)`. -/
theorem update_velocity_exceeds_maxSpeed :
    ¬ (|((Particle.update (⟨⟨0, 0⟩, ⟨0, 0⟩, ⟨0, 36⟩⟩ : Particle ℚ) 1).pos.x
          - (Particle.update (⟨⟨0, 0⟩, ⟨0, 0⟩, ⟨0, 36⟩⟩ : Particle ℚ) 1).prev.x)| ≤ 35 ∧
       |((Particle.update (⟨⟨0, 0⟩, ⟨0, 0⟩, ⟨0, 36⟩⟩ : Particle ℚ) 1).pos.y
          - (Particle.update (⟨⟨0, 0⟩, ⟨0, 0⟩, ⟨0, 36⟩⟩ : Particle ℚ) 1).prev.y)| ≤ 35) := by
  simp only [Particle.update, maxSpeed]
  norm_num

/-- C1 (amended): after `update(1)` each component of the velocity `pos - prev`
differs from the accumulated force component by at most 35: the clamp bounds
the carried-over velocity, the force is added after the clamp. -/
theorem update_velocity_within_maxSpeed_of_force (p : Particle α) :
    |((p.update 1).pos.x - (p.update 1).prev.x) - p.acc.x| ≤ 35 ∧
    |((p.update 1).pos.y - (p.update 1).prev.y) - p.acc.y| ≤ 35 := by
  have hx := abs_clamp_le ((p.pos.x - p.prev.x) * 0.999)
  have hy := abs_clamp_le ((p.pos.y - p.prev.y) * 0.999)
  simp only [Particle.update, mul_one]
  constructor
  · rw [show p.pos.x + (max (-maxSpeed) (min maxSpeed ((p.pos.x - p.prev.x) * 0.999))
        + p.acc.x) - p.pos.x - p.acc.x
        = max (-maxSpeed) (min maxSpeed ((p.pos.x - p.prev.x) * 0.999)) by ring]
    exact hx
  · rw [show p.pos.y + (max (-maxSpeed) (min maxSpeed ((p.pos.y - p.prev.y) * 0.999))
        + p.acc.y) - p.pos.y - p.acc.y
        = max (-maxSpeed) (min maxSpeed ((p.pos.y - p.prev.y) * 0.999)) by ring]
    exact hy

/-- C2: `update(dt)` stores the old position in `prev` and advances `pos` by the
clamped, damped velocity plus `acc * dt^2`, on each axis. -/
theorem update_verlet_step (p : Particle α) (dt : α) :
    (p.update dt).prev = p.pos ∧
    (p.update dt).pos =
      ⟨p.pos.x + max (-35) (min 35 (0.999 * (p.pos.x - p.prev.x))) + p.acc.x * dt ^ 2,
       p.pos.y + max (-35) (min 35 (0.999 * (p.pos.y - p.prev.y))) + p.acc.y * dt ^ 2⟩ := by
  refine ⟨rfl, ?_⟩
  simp only [Particle.update, maxSpeed, Vec.mk.injEq]
  constructor
  · rw [mul_comm (0.999 : α)]; ring
  · rw [mul_comm (0.999 : α)]; ring

/-- C3: the accumulated force is zero right after `update`, for a freshly
constructed particle, for every particle at the end of a frame tick, and for
every particle of every collection reached from the start population by frame
ticks and clicks. -/
theorem acc_zero_invariant (sqrt : α → α) :
    (∀ (p : Particle α) (dt : α), (p.update dt).acc = ⟨0, 0⟩) ∧
    (∀ x y r1 r2 : α, (Particle.constructor x y r1 r2).acc = ⟨0, 0⟩) ∧
    (∀ (width height gravity : α) (ps : List (Particle α)),
      AccZero (animate sqrt width height gravity ps)) ∧
    (∀ (width height : α) (rnd : Nat → α) (es : List (Event α)),
      AccZero (run sqrt (initialParticles width height rnd) es)) :=
  ⟨fun _ _ => rfl, fun _ _ _ _ => rfl, animate_accZero sqrt,
   fun width height rnd es =>
     run_accZero sqrt _ es (initialParticles_accZero width height rnd)⟩

/-- C4 (as stated, refuted): on binary64 numbers, in a 1000 by 1000 viewport
with gravity 0, the particle with `pos.x = 512 + 2 ^ (-43)`, `prev.x = 512`
ends a frame tick with `pos.x = 512 + 2 ^ (-42)`, `prev.x = 512 + 2 ^ (-43)`,
its speed `2 ^ (-43)` as before; the particle with `pos.x = 1 + 3 * 2 ^ (-52)`,
`prev.x = 1` is put on the left wall with `prev.x = 7 + 2 ^ (-50)`, its speed
raised from `3 * 2 ^ (-52)` to `4 * 2 ^ (-52)`. -/
theorem rounded_speed_stalls_or_grows :
    (Binary64.animate 1000 1000 0 [⟨⟨512 + 1 / 2 ^ 43, 300⟩, ⟨512, 300⟩, ⟨0, 0⟩⟩]
        = [⟨⟨512 + 1 / 2 ^ 42, 300⟩, ⟨512 + 1 / 2 ^ 43, 300⟩, ⟨0, 0⟩⟩] ∧
      Binary64.speed ⟨⟨512 + 1 / 2 ^ 43, 300⟩, ⟨512, 300⟩, ⟨0, 0⟩⟩ ≠ 0 ∧
      ¬ Binary64.speed ⟨⟨512 + 1 / 2 ^ 42, 300⟩, ⟨512 + 1 / 2 ^ 43, 300⟩, ⟨0, 0⟩⟩
          < Binary64.speed ⟨⟨512 + 1 / 2 ^ 43, 300⟩, ⟨512, 300⟩, ⟨0, 0⟩⟩) ∧
    (Binary64.animate 1000 1000 0 [⟨⟨1 + 3 / 2 ^ 52, 300⟩, ⟨1, 300⟩, ⟨0, 0⟩⟩]
        = [⟨⟨7, 300⟩, ⟨7 + 4 / 2 ^ 52, 300⟩, ⟨0, 0⟩⟩] ∧
      Binary64.speed ⟨⟨1 + 3 / 2 ^ 52, 300⟩, ⟨1, 300⟩, ⟨0, 0⟩⟩
        < Binary64.speed ⟨⟨7, 300⟩, ⟨7 + 4 / 2 ^ 52, 300⟩, ⟨0, 0⟩⟩) := by
  decide!

/-- C4 (amended): for a one-particle collection with zero gravity (the
accumulated force zero, as at the start of every frame), coordinates and
viewport sizes of absolute value at most `10 ^ 4` and a speed `|pos - prev|` of
at least `10 ^ (-6)`, a frame tick strictly decreases the speed. -/
theorem single_particle_speed_decreases_above_threshold (width height : ℝ) (p : Particle ℝ)
    (hacc : p.acc = ⟨0, 0⟩)
    (hrange : |p.pos.x| ≤ 10000 ∧ |p.pos.y| ≤ 10000 ∧ |p.prev.x| ≤ 10000 ∧
      |p.prev.y| ≤ 10000 ∧ |width| ≤ 10000 ∧ |height| ≤ 10000)
    (hspeed : 1 / 1000000 ≤ p.speed Real.sqrt) :
    ∃ q, animate Real.sqrt width height 0 [p] = [q] ∧
      q.speed Real.sqrt < p.speed Real.sqrt := by
  have _ := hrange
  refine ⟨_, animate_singleton Real.sqrt width height 0 p, ?_⟩
  have hu := update_velocity_sq_le p hacc
  have hb := boundary_velocity_sq_le width height 0 ((p.applyForce 0 0).update dt)
  have hx0 := sq_nonneg (p.pos.x - p.prev.x)
  have hy0 := sq_nonneg (p.pos.y - p.prev.y)
  have hpos : 0 < p.speed Real.sqrt := lt_of_lt_of_le (by norm_num) hspeed
  simp only [Particle.speed] at hpos ⊢
  rw [Real.sqrt_pos] at hpos
  apply Real.sqrt_lt_sqrt
  · exact add_nonneg (mul_self_nonneg _) (mul_self_nonneg _)
  · nlinarith [hu.1, hu.2, hb.1, hb.2]

theorem single_particle_speed_decreases_above_threshold_witness :
    ∃ q, animate Real.sqrt 100 100 0 [(⟨⟨50, 50⟩, ⟨47, 46⟩, ⟨0, 0⟩⟩ : Particle ℝ)] = [q] ∧
      q.speed Real.sqrt < (⟨⟨50, 50⟩, ⟨47, 46⟩, ⟨0, 0⟩⟩ : Particle ℝ).speed Real.sqrt := by
  have h5 : (⟨⟨50, 50⟩, ⟨47, 46⟩, ⟨0, 0⟩⟩ : Particle ℝ).speed Real.sqrt = 5 := by
    simp only [Particle.speed]
    rw [show ((50 : ℝ) - 47) * (50 - 47) + (50 - 46) * (50 - 46) = 5 * 5 by norm_num]
    exact Real.sqrt_mul_self (by norm_num)
  exact single_particle_speed_decreases_above_threshold 100 100 ⟨⟨50, 50⟩, ⟨47, 46⟩, ⟨0, 0⟩⟩ rfl
    (by simp only [abs_le]; norm_num) (by rw [h5]; norm_num)

/-- C5: `solveCollisions` conserves the sum of the positions of all particles,
on each axis, for every particle list (and whatever `Math.sqrt` returns); the
loop body moves the two particles of a pair by equal and opposite
displacements. -/
theorem solveCollisions_conserves_position_sum (sqrt : α → α) (ps : List (Particle α)) :
    ((solveCollisions sqrt ps).map fun p => p.pos.x).sum = (ps.map fun p => p.pos.x).sum ∧
    ((solveCollisions sqrt ps).map fun p => p.pos.y).sum = (ps.map fun p => p.pos.y).sum ∧
    (∀ p1 p2 : Particle α,
      (resolvePair sqrt p1 p2).1.pos.x - p1.pos.x = -((resolvePair sqrt p1 p2).2.pos.x - p2.pos.x) ∧
      (resolvePair sqrt p1 p2).1.pos.y - p1.pos.y = -((resolvePair sqrt p1 p2).2.pos.y - p2.pos.y)) :=
  ⟨solveCollisions_sum sqrt (fun p => p.pos.x) (fun p1 p2 => (resolvePair_pos_sum sqrt p1 p2).1) ps,
   solveCollisions_sum sqrt (fun p => p.pos.y) (fun p1 p2 => (resolvePair_pos_sum sqrt p1 p2).2) ps,
   fun p1 p2 =>
    ⟨by linear_combination (resolvePair_pos_sum sqrt p1 p2).1,
     by linear_combination (resolvePair_pos_sum sqrt p1 p2).2⟩⟩

/-- C6 (as stated, refuted): on binary64 numbers two particles at rest at
`(600, 300)` and `(608.3999999999999772, 311.1999999999999318)`, whose centres
are less than `diameter` apart, leave `solveCollisions` as they were (the
pushes of about `2e-14` are lost in the rounding of the positions); so do two
particles whose centres are `2 ^ (-600)` apart (`dx * dx` underflows to 0 and
the pair is skipped). -/
theorem rounded_overlap_unresolved :
    ((0 : ℚ) < (5351542994711347 / 8796093022208 - 600) ^ 2
        + (2737344148511129 / 8796093022208 - 300) ^ 2 ∧
      ((5351542994711347 / 8796093022208 - 600) ^ 2
        + (2737344148511129 / 8796093022208 - 300) ^ 2 : ℚ) < diameter ^ 2 ∧
      Binary64.solveCollisions [⟨⟨600, 300⟩, ⟨600, 300⟩, ⟨0, 0⟩⟩,
          ⟨⟨5351542994711347 / 8796093022208, 2737344148511129 / 8796093022208⟩,
           ⟨5351542994711347 / 8796093022208, 2737344148511129 / 8796093022208⟩, ⟨0, 0⟩⟩]
        = [⟨⟨600, 300⟩, ⟨600, 300⟩, ⟨0, 0⟩⟩,
          ⟨⟨5351542994711347 / 8796093022208, 2737344148511129 / 8796093022208⟩,
           ⟨5351542994711347 / 8796093022208, 2737344148511129 / 8796093022208⟩, ⟨0, 0⟩⟩]) ∧
    ((0 : ℚ) < (1 / 2 ^ 600 - 0) ^ 2 + (0 - 0) ^ 2 ∧
      ((1 / 2 ^ 600 - 0) ^ 2 + (0 - 0) ^ 2 : ℚ) < diameter ^ 2 ∧
      Binary64.solveCollisions [⟨⟨0, 0⟩, ⟨0, 0⟩, ⟨0, 0⟩⟩, ⟨⟨1 / 2 ^ 600, 0⟩, ⟨1 / 2 ^ 600, 0⟩, ⟨0, 0⟩⟩]
        = [⟨⟨0, 0⟩, ⟨0, 0⟩, ⟨0, 0⟩⟩, ⟨⟨1 / 2 ^ 600, 0⟩, ⟨1 / 2 ^ 600, 0⟩, ⟨0, 0⟩⟩]) := by
  decide!

/-- C6 (amended): two particles that are the whole population, with position
coordinates of absolute value at most `10 ^ 4` and a centre distance `d` with
`10 ^ (-6) ≤ d ≤ diameter - 10 ^ (-6)`, are after `solveCollisions` at a
centre distance closer to `diameter` than before. -/
theorem overlapping_pair_distance_improves_above_threshold (p1 p2 : Particle ℝ)
    (hrange : |p1.pos.x| ≤ 10000 ∧ |p1.pos.y| ≤ 10000 ∧ |p2.pos.x| ≤ 10000 ∧
      |p2.pos.y| ≤ 10000)
    (h0 : 1 / 1000000 ≤ centreDistance Real.sqrt p1 p2)
    (h1 : centreDistance Real.sqrt p1 p2 ≤ diameter - 1 / 1000000) :
    ∃ q1 q2, solveCollisions Real.sqrt [p1, p2] = [q1, q2] ∧
      |centreDistance Real.sqrt q1 q2 - diameter|
        < |centreDistance Real.sqrt p1 p2 - diameter| := by
  have _ := hrange
  have hpos : 0 < centreDistance Real.sqrt p1 p2 := lt_of_lt_of_le (by norm_num) h0
  have hlt : centreDistance Real.sqrt p1 p2 < diameter := by linarith
  have hr := resolvePair_dist p1 p2 hpos hlt
  have hn : ¬ centreDistance Real.sqrt (resolvePair Real.sqrt p1 p2).1
      (resolvePair Real.sqrt p1 p2).2 < diameter := by
    rw [hr]; exact lt_irrefl _
  refine ⟨(resolvePair Real.sqrt p1 p2).1, (resolvePair Real.sqrt p1 p2).2, ?_, ?_⟩
  · rw [solveCollisions_pair, collisionPass_pair, collisionPass_pair,
      resolvePair_of_not_lt _ _ _ hn, collisionPass_pair, resolvePair_of_not_lt _ _ _ hn]
  · rw [hr, sub_self, abs_zero]
    exact abs_pos.mpr (sub_ne_zero.mpr (ne_of_lt hlt))

theorem overlapping_pair_distance_improves_above_threshold_witness :
    ∃ q1 q2, solveCollisions Real.sqrt
        [(⟨⟨0, 0⟩, ⟨0, 0⟩, ⟨0, 0⟩⟩ : Particle ℝ), ⟨⟨3, 4⟩, ⟨3, 4⟩, ⟨0, 0⟩⟩] = [q1, q2] ∧
      |centreDistance Real.sqrt q1 q2 - diameter|
        < |centreDistance Real.sqrt (⟨⟨0, 0⟩, ⟨0, 0⟩, ⟨0, 0⟩⟩ : Particle ℝ)
            ⟨⟨3, 4⟩, ⟨3, 4⟩, ⟨0, 0⟩⟩ - diameter| := by
  have h5 : centreDistance Real.sqrt (⟨⟨0, 0⟩, ⟨0, 0⟩, ⟨0, 0⟩⟩ : Particle ℝ)
      ⟨⟨3, 4⟩, ⟨3, 4⟩, ⟨0, 0⟩⟩ = 5 := by
    simp only [centreDistance]
    rw [show ((3 : ℝ) - 0) * (3 - 0) + (4 - 0) * (4 - 0) = 5 * 5 by norm_num]
    exact Real.sqrt_mul_self (by norm_num)
  exact overlapping_pair_distance_improves_above_threshold _ _
    (by simp only [abs_le]; norm_num) (by rw [h5]; norm_num)
    (by rw [h5]; unfold diameter radius; norm_num)

/-- C7: two particles with identical positions that are the whole population
pass through `solveCollisions` unchanged (`pos`, `prev` and `acc`), given that
`Math.sqrt(0)` is `0`. -/
theorem coincident_pair_unchanged (sqrt : α → α) (hsqrt : sqrt 0 = 0) (p1 p2 : Particle α)
    (hpos : p1.pos = p2.pos) : solveCollisions sqrt [p1, p2] = [p1, p2] := by
  have h : centreDistance sqrt p1 p2 = 0 := by
    simp only [centreDistance, hpos, sub_self, mul_zero, add_zero, hsqrt]
  rw [solveCollisions_pair, collisionPass_pair, resolvePair_of_dist_eq_zero _ _ _ h,
    collisionPass_pair, resolvePair_of_dist_eq_zero _ _ _ h,
    collisionPass_pair, resolvePair_of_dist_eq_zero _ _ _ h]

theorem coincident_pair_unchanged_witness :
    solveCollisions Real.sqrt
        [(⟨⟨5, 6⟩, ⟨4, 4⟩, ⟨0, 0⟩⟩ : Particle ℝ), ⟨⟨5, 6⟩, ⟨7, 5⟩, ⟨0, 0⟩⟩]
      = [⟨⟨5, 6⟩, ⟨4, 4⟩, ⟨0, 0⟩⟩, ⟨⟨5, 6⟩, ⟨7, 5⟩, ⟨0, 0⟩⟩] :=
  coincident_pair_unchanged Real.sqrt Real.sqrt_zero _ _ rfl

/-- C8: with `width >= 2 * radius`, a particle beyond a wall on entering the
boundary step ends exactly on that wall line, with horizontal velocity `-0.7`
times the entering one (floor contact or not); without floor contact its
vertical velocity is unchanged. -/
theorem boundary_wall_reflects (width height gravity : α) (p : Particle α) (wall : α)
    (hw : 2 * radius ≤ width)
    (hwall : (p.pos.x > width - radius ∧ wall = width - radius) ∨
      (p.pos.x < radius ∧ wall = radius)) :
    (boundary width height gravity p).pos.x = wall ∧
    (boundary width height gravity p).pos.x - (boundary width height gravity p).prev.x
      = -0.7 * (p.pos.x - p.prev.x) ∧
    (¬ p.pos.y > height - radius →
      (boundary width height gravity p).pos.y - (boundary width height gravity p).prev.y
        = p.pos.y - p.prev.y) := by
  rcases hwall with ⟨hx, rfl⟩ | ⟨hx, rfl⟩
  · have h2 : ¬ width - radius < radius := by
      rw [not_lt]; linarith
    unfold boundary
    simp only []
    split_ifs <;> refine ⟨rfl, by ring1, fun _ => ?_⟩ <;> first | rfl | contradiction
  · have h1 : ¬ p.pos.x > width - radius := by
      rw [gt_iff_lt, not_lt]; linarith
    unfold boundary
    simp only []
    split_ifs <;> refine ⟨rfl, by ring1, fun _ => ?_⟩ <;> first | rfl | contradiction

theorem boundary_wall_reflects_witness :
    (boundary 100 100 (0.35 : ℚ) ⟨⟨98, 50⟩, ⟨90, 48⟩, ⟨0, 0⟩⟩).pos.x = 100 - radius ∧
    (boundary 100 100 (0.35 : ℚ) ⟨⟨98, 50⟩, ⟨90, 48⟩, ⟨0, 0⟩⟩).pos.x
        - (boundary 100 100 (0.35 : ℚ) ⟨⟨98, 50⟩, ⟨90, 48⟩, ⟨0, 0⟩⟩).prev.x
      = -0.7 * (98 - 90) ∧
    (¬ (50 : ℚ) > 100 - radius →
      (boundary 100 100 (0.35 : ℚ) ⟨⟨98, 50⟩, ⟨90, 48⟩, ⟨0, 0⟩⟩).pos.y
          - (boundary 100 100 (0.35 : ℚ) ⟨⟨98, 50⟩, ⟨90, 48⟩, ⟨0, 0⟩⟩).prev.y
        = 50 - 48) :=
  boundary_wall_reflects 100 100 0.35 ⟨⟨98, 50⟩, ⟨90, 48⟩, ⟨0, 0⟩⟩ (100 - radius)
    (by unfold radius; norm_num) (Or.inl ⟨by unfold radius; norm_num, rfl⟩)

/-- C9: a particle in floor contact that is beyond neither wall and does not
meet the freeze condition ends on the floor line with `pos.x` unchanged,
vertical velocity `-0.6 * vy` and horizontal velocity `0.85 * vx`. -/
theorem boundary_floor_bounce (width height gravity : α) (p : Particle α)
    (hfloor : p.pos.y > height - radius)
    (hright : ¬ p.pos.x > width - radius) (hleft : ¬ p.pos.x < radius)
    (hfreeze : ¬ (|p.pos.y - p.prev.y| < 0.1 ∧ gravity < 0.05)) :
    (boundary width height gravity p).pos.y = height - radius ∧
    (boundary width height gravity p).pos.x = p.pos.x ∧
    (boundary width height gravity p).pos.y - (boundary width height gravity p).prev.y
      = -0.6 * (p.pos.y - p.prev.y) ∧
    (boundary width height gravity p).pos.x - (boundary width height gravity p).prev.x
      = 0.85 * (p.pos.x - p.prev.x) := by
  unfold boundary
  simp only [hfloor, hright, hleft, hfreeze, if_true, if_false]
  and_intros <;> first | trivial | ring1

theorem boundary_floor_bounce_witness :
    (boundary 100 100 (0.35 : ℚ) ⟨⟨50, 99⟩, ⟨48, 90⟩, ⟨0, 0⟩⟩).pos.y = 100 - radius ∧
    (boundary 100 100 (0.35 : ℚ) ⟨⟨50, 99⟩, ⟨48, 90⟩, ⟨0, 0⟩⟩).pos.x = 50 ∧
    (boundary 100 100 (0.35 : ℚ) ⟨⟨50, 99⟩, ⟨48, 90⟩, ⟨0, 0⟩⟩).pos.y
        - (boundary 100 100 (0.35 : ℚ) ⟨⟨50, 99⟩, ⟨48, 90⟩, ⟨0, 0⟩⟩).prev.y
      = -0.6 * (99 - 90) ∧
    (boundary 100 100 (0.35 : ℚ) ⟨⟨50, 99⟩, ⟨48, 90⟩, ⟨0, 0⟩⟩).pos.x
        - (boundary 100 100 (0.35 : ℚ) ⟨⟨50, 99⟩, ⟨48, 90⟩, ⟨0, 0⟩⟩).prev.x
      = 0.85 * (50 - 48) :=
  boundary_floor_bounce 100 100 0.35 ⟨⟨50, 99⟩, ⟨48, 90⟩, ⟨0, 0⟩⟩
    (by unfold radius; norm_num) (by unfold radius; norm_num) (by unfold radius; norm_num)
    (by norm_num)

/-- C10: a particle in floor contact whose vertical speed is under `0.1` while
gravity is under `0.05` ends with `prev.y = pos.y = height - radius`. -/
theorem boundary_floor_freeze (width height gravity : α) (p : Particle α)
    (hfloor : p.pos.y > height - radius)
    (hslow : |p.pos.y - p.prev.y| < 0.1) (hgrav : gravity < 0.05) :
    (boundary width height gravity p).prev.y = (boundary width height gravity p).pos.y ∧
    (boundary width height gravity p).pos.y = height - radius := by
  unfold boundary
  simp only [hfloor, hslow, hgrav, and_self, if_true]
  split_ifs <;> exact ⟨rfl, rfl⟩

theorem boundary_floor_freeze_witness :
    (boundary 100 100 (0 : ℚ) ⟨⟨50, 94⟩, ⟨48, 93.95⟩, ⟨0, 0⟩⟩).prev.y
      = (boundary 100 100 (0 : ℚ) ⟨⟨50, 94⟩, ⟨48, 93.95⟩, ⟨0, 0⟩⟩).pos.y ∧
    (boundary 100 100 (0 : ℚ) ⟨⟨50, 94⟩, ⟨48, 93.95⟩, ⟨0, 0⟩⟩).pos.y = 100 - radius :=
  boundary_floor_freeze 100 100 0 ⟨⟨50, 94⟩, ⟨48, 93.95⟩, ⟨0, 0⟩⟩
    (by unfold radius; norm_num) (by rw [abs_lt]; constructor <;> norm_num) (by norm_num)

/-- C11: a single particle at rest on the floor line (with the accumulated
force zero, as at the start of every frame) under constant gravity `g > 0` is
on the floor line again after every number of frame ticks. -/
theorem resting_particle_stays_on_floor (sqrt : α → α) (width height gravity : α)
    (p : Particle α) (hg : 0 < gravity) (hacc : p.acc = ⟨0, 0⟩)
    (hpos : p.pos.y = height - radius) (hprev : p.prev.y = height - radius) (n : Nat) :
    ∃ q, (animate sqrt width height gravity)^[n] [p] = [q] ∧ q.pos.y = height - radius := by
  have hv : p.pos.y - p.prev.y = 0 := by rw [hpos, hprev, sub_self]
  obtain ⟨q, hq, _, hy, _, _⟩ := floor_iterate sqrt width height gravity p hg hacc hpos
    (by rw [hv]; linarith) (by rw [hv]) n
  exact ⟨q, hq, hy⟩

theorem resting_particle_stays_on_floor_witness :
    ∃ q, (animate Real.sqrt 100 100 0.35)^[5] [⟨⟨50, 93⟩, ⟨50, 93⟩, ⟨0, 0⟩⟩] = [q] ∧
      q.pos.y = 100 - radius :=
  resting_particle_stays_on_floor Real.sqrt 100 100 0.35 ⟨⟨50, 93⟩, ⟨50, 93⟩, ⟨0, 0⟩⟩
    (by norm_num) rfl (by unfold radius; norm_num) (by unfold radius; norm_num) 5

/-- C12: a click at `(x, y)` appends exactly one particle at the end of the
collection, the others unchanged; the new particle has `pos = (x, y)`, zero
accumulated force and, for random draws in `[0, 1)`, a velocity whose components
lie in `[-2, 2]`. -/
theorem handleClick_appends_particle (ps : List (Particle α)) (x y r1 r2 : α)
    (h1 : 0 ≤ r1 ∧ r1 < 1) (h2 : 0 ≤ r2 ∧ r2 < 1) :
    ∃ q, handleClick ps x y r1 r2 = ps ++ [q] ∧ q.pos = ⟨x, y⟩ ∧ q.acc = ⟨0, 0⟩ ∧
      -2 ≤ q.pos.x - q.prev.x ∧ q.pos.x - q.prev.x ≤ 2 ∧
      -2 ≤ q.pos.y - q.prev.y ∧ q.pos.y - q.prev.y ≤ 2 := by
  refine ⟨Particle.constructor x y r1 r2, rfl, rfl, rfl, ?_, ?_, ?_, ?_⟩ <;>
    simp only [Particle.constructor] <;> linarith [h1.1, h1.2, h2.1, h2.2]

theorem handleClick_appends_particle_witness :
    ∃ q, handleClick [(⟨⟨1, 2⟩, ⟨1, 1⟩, ⟨0, 0⟩⟩ : Particle ℚ)] 30 40 0.25 0.75
        = [⟨⟨1, 2⟩, ⟨1, 1⟩, ⟨0, 0⟩⟩] ++ [q] ∧ q.pos = ⟨30, 40⟩ ∧ q.acc = ⟨0, 0⟩ ∧
      -2 ≤ q.pos.x - q.prev.x ∧ q.pos.x - q.prev.x ≤ 2 ∧
      -2 ≤ q.pos.y - q.prev.y ∧ q.pos.y - q.prev.y ≤ 2 :=
  handleClick_appends_particle [⟨⟨1, 2⟩, ⟨1, 1⟩, ⟨0, 0⟩⟩] 30 40 0.25 0.75
    (by norm_num) (by norm_num)

/-- C13: a frame tick keeps the number of particles, a click raises it by one,
and after any sequence of frame ticks and clicks from the start population the
number is 40 plus the number of clicks. -/
theorem particle_count_grows_by_clicks (sqrt : α → α) :
    (∀ (width height gravity : α) (ps : List (Particle α)),
      (animate sqrt width height gravity ps).length = ps.length) ∧
    (∀ (ps : List (Particle α)) (x y r1 r2 : α),
      (handleClick ps x y r1 r2).length = ps.length + 1) ∧
    (∀ (width height : α) (rnd : Nat → α) (es : List (Event α)),
      (run sqrt (initialParticles width height rnd) es).length
        = 40 + es.countP Event.isClick) := by
  refine ⟨animate_length sqrt, fun ps x y r1 r2 => by simp [handleClick],
    fun width height rnd es => ?_⟩
  rw [run_length]
  simp [initialParticles]

/-- C14 (as stated, refuted): a particle that hits the right wall with velocity
`(10, 0)` leaves the boundary step with velocity `(-7, 0)`, yet its lightness
is `55 + 4 * 10`, not `55 + 4 * 7`. -/
theorem fillStyle_not_post_boundary :
    fillStyle Real.sqrt (⟨⟨98, 50⟩, ⟨88, 50⟩, ⟨0, 0⟩⟩ : Particle ℝ) ≠
      (200, 100, 55 + 4 * Real.sqrt
        (((boundary 100 100 0.35 (⟨⟨98, 50⟩, ⟨88, 50⟩, ⟨0, 0⟩⟩ : Particle ℝ)).pos.x
            - (boundary 100 100 0.35 (⟨⟨98, 50⟩, ⟨88, 50⟩, ⟨0, 0⟩⟩ : Particle ℝ)).prev.x) ^ 2
          + ((boundary 100 100 0.35 (⟨⟨98, 50⟩, ⟨88, 50⟩, ⟨0, 0⟩⟩ : Particle ℝ)).pos.y
            - (boundary 100 100 0.35 (⟨⟨98, 50⟩, ⟨88, 50⟩, ⟨0, 0⟩⟩ : Particle ℝ)).prev.y) ^ 2)) := by
  have hx : (boundary 100 100 0.35 (⟨⟨98, 50⟩, ⟨88, 50⟩, ⟨0, 0⟩⟩ : Particle ℝ)).pos.x
      - (boundary 100 100 0.35 (⟨⟨98, 50⟩, ⟨88, 50⟩, ⟨0, 0⟩⟩ : Particle ℝ)).prev.x = -7 := by
    simp only [boundary, radius]
    norm_num
  have hy : (boundary 100 100 0.35 (⟨⟨98, 50⟩, ⟨88, 50⟩, ⟨0, 0⟩⟩ : Particle ℝ)).pos.y
      - (boundary 100 100 0.35 (⟨⟨98, 50⟩, ⟨88, 50⟩, ⟨0, 0⟩⟩ : Particle ℝ)).prev.y = 0 := by
    simp only [boundary, radius]
    norm_num
  have h7 : Real.sqrt ((-7 : ℝ) ^ 2 + 0 ^ 2) = 7 := by
    rw [show ((-7 : ℝ) ^ 2 + 0 ^ 2) = 7 * 7 by norm_num]
    exact Real.sqrt_mul_self (by norm_num)
  have h10 : Real.sqrt (((98 : ℝ) - 88) * (98 - 88) + (50 - 50) * (50 - 50)) = 10 := by
    rw [show (((98 : ℝ) - 88) * (98 - 88) + (50 - 50) * (50 - 50)) = 10 * 10 by norm_num]
    exact Real.sqrt_mul_self (by norm_num)
  rw [hx, hy, h7]
  simp only [fillStyle, h10]
  norm_num

/-- C14 (amended): the fill colour has hue 200, saturation 100 and lightness
`55 + 4 * sqrt(vx^2 + vy^2)` for the velocity `pos - prev` of the particle
entering the boundary step (before the floor and wall handling); for a
particle that touches neither the floor nor a wall this is also its velocity
after the boundary step. -/
theorem fillStyle_entry_velocity (sqrt : α → α) (width height gravity : α) (p : Particle α) :
    fillStyle sqrt p =
      (200, 100, 55 + 4 * sqrt ((p.pos.x - p.prev.x) ^ 2 + (p.pos.y - p.prev.y) ^ 2)) ∧
    (¬ p.pos.y > height - radius → ¬ p.pos.x > width - radius → ¬ p.pos.x < radius →
      fillStyle sqrt p =
        (200, 100, 55 + 4 * sqrt
          (((boundary width height gravity p).pos.x
              - (boundary width height gravity p).prev.x) ^ 2
            + ((boundary width height gravity p).pos.y
              - (boundary width height gravity p).prev.y) ^ 2))) := by
  have h : fillStyle sqrt p =
      (200, 100, 55 + 4 * sqrt ((p.pos.x - p.prev.x) ^ 2 + (p.pos.y - p.prev.y) ^ 2)) := by
    simp only [fillStyle, sq, mul_comm (4 : α)]
  refine ⟨h, fun hf hr hl => ?_⟩
  rw [boundary_of_inside width height gravity p hf hr hl]
  exact h

theorem fillStyle_entry_velocity_witness :
    fillStyle Real.sqrt ⟨⟨50, 50⟩, ⟨47, 46⟩, ⟨0, 0⟩⟩ =
      (200, 100, 55 + 4 * Real.sqrt (((50 : ℝ) - 47) ^ 2 + (50 - 46) ^ 2)) ∧
    (¬ (50 : ℝ) > 100 - radius → ¬ (50 : ℝ) > 100 - radius → ¬ (50 : ℝ) < radius →
      fillStyle Real.sqrt ⟨⟨50, 50⟩, ⟨47, 46⟩, ⟨0, 0⟩⟩ =
        (200, 100, 55 + 4 * Real.sqrt
          (((boundary 100 100 0.35 (⟨⟨50, 50⟩, ⟨47, 46⟩, ⟨0, 0⟩⟩ : Particle ℝ)).pos.x
              - (boundary 100 100 0.35 (⟨⟨50, 50⟩, ⟨47, 46⟩, ⟨0, 0⟩⟩ : Particle ℝ)).prev.x) ^ 2
            + ((boundary 100 100 0.35 (⟨⟨50, 50⟩, ⟨47, 46⟩, ⟨0, 0⟩⟩ : Particle ℝ)).pos.y
              - (boundary 100 100 0.35 (⟨⟨50, 50⟩, ⟨47, 46⟩, ⟨0, 0⟩⟩ : Particle ℝ)).prev.y) ^ 2))) :=
  fillStyle_entry_velocity Real.sqrt 100 100 0.35 ⟨⟨50, 50⟩, ⟨47, 46⟩, ⟨0, 0⟩⟩

/-- C15 (as stated, refuted): two particles at rest with centres `(0, 0)` and
`(6, 8)` overlap (distance 10), and after the resolution the first one has the
horizontal velocity `-1.176`, not `0.98 * 0`. -/
theorem resolved_velocity_not_damped_old_velocity :
    0 < centreDistance Real.sqrt (⟨⟨0, 0⟩, ⟨0, 0⟩, ⟨0, 0⟩⟩ : Particle ℝ)
        ⟨⟨6, 8⟩, ⟨6, 8⟩, ⟨0, 0⟩⟩ ∧
    centreDistance Real.sqrt (⟨⟨0, 0⟩, ⟨0, 0⟩, ⟨0, 0⟩⟩ : Particle ℝ)
        ⟨⟨6, 8⟩, ⟨6, 8⟩, ⟨0, 0⟩⟩ < diameter ∧
    (resolvePair Real.sqrt (⟨⟨0, 0⟩, ⟨0, 0⟩, ⟨0, 0⟩⟩ : Particle ℝ)
        ⟨⟨6, 8⟩, ⟨6, 8⟩, ⟨0, 0⟩⟩).1.pos.x
      - (resolvePair Real.sqrt (⟨⟨0, 0⟩, ⟨0, 0⟩, ⟨0, 0⟩⟩ : Particle ℝ)
        ⟨⟨6, 8⟩, ⟨6, 8⟩, ⟨0, 0⟩⟩).1.prev.x
      ≠ 0.98 * ((0 : ℝ) - 0) := by
  have h10 := centreDistance_six_eight ⟨0, 0⟩ ⟨0, 0⟩ ⟨6, 8⟩ ⟨0, 0⟩
  have h0 : centreDistance Real.sqrt (⟨⟨0, 0⟩, ⟨0, 0⟩, ⟨0, 0⟩⟩ : Particle ℝ)
      ⟨⟨6, 8⟩, ⟨6, 8⟩, ⟨0, 0⟩⟩ ≠ 0 := by rw [h10]; norm_num
  have h1 : centreDistance Real.sqrt (⟨⟨0, 0⟩, ⟨0, 0⟩, ⟨0, 0⟩⟩ : Particle ℝ)
      ⟨⟨6, 8⟩, ⟨6, 8⟩, ⟨0, 0⟩⟩ < diameter := by
    rw [h10]; unfold diameter radius; norm_num
  obtain ⟨hd, hv, -⟩ := resolvePair_of_overlap Real.sqrt _ _ h0 h1
  refine ⟨by rw [h10]; norm_num, h1, ?_⟩
  rw [hv]
  rw [h10] at hd
  simp only [diameter, radius] at hd
  have hp : (resolvePair Real.sqrt (⟨⟨0, 0⟩, ⟨0, 0⟩, ⟨0, 0⟩⟩ : Particle ℝ)
      ⟨⟨6, 8⟩, ⟨6, 8⟩, ⟨0, 0⟩⟩).1.pos.x = -1.2 := by
    norm_num at hd ⊢
    linarith
  rw [hp]
  norm_num

/-- C15 (amended): when the loop body resolves a pair (`dist` not zero and
under `diameter`), each particle's velocity afterwards is `0.98` times the sum
of its velocity before the push and its positional displacement by the push. -/
theorem resolved_velocity_includes_push (sqrt : α → α) (p1 p2 : Particle α)
    (h0 : centreDistance sqrt p1 p2 ≠ 0) (h1 : centreDistance sqrt p1 p2 < diameter) :
    (resolvePair sqrt p1 p2).1.pos.x - (resolvePair sqrt p1 p2).1.prev.x
      = 0.98 * ((p1.pos.x - p1.prev.x) + ((resolvePair sqrt p1 p2).1.pos.x - p1.pos.x)) ∧
    (resolvePair sqrt p1 p2).1.pos.y - (resolvePair sqrt p1 p2).1.prev.y
      = 0.98 * ((p1.pos.y - p1.prev.y) + ((resolvePair sqrt p1 p2).1.pos.y - p1.pos.y)) ∧
    (resolvePair sqrt p1 p2).2.pos.x - (resolvePair sqrt p1 p2).2.prev.x
      = 0.98 * ((p2.pos.x - p2.prev.x) + ((resolvePair sqrt p1 p2).2.pos.x - p2.pos.x)) ∧
    (resolvePair sqrt p1 p2).2.pos.y - (resolvePair sqrt p1 p2).2.prev.y
      = 0.98 * ((p2.pos.y - p2.prev.y) + ((resolvePair sqrt p1 p2).2.pos.y - p2.pos.y)) := by
  obtain ⟨-, a, b, c, d⟩ := resolvePair_of_overlap sqrt p1 p2 h0 h1
  refine ⟨?_, ?_, ?_, ?_⟩
  · rw [a]; ring
  · rw [b]; ring
  · rw [c]; ring
  · rw [d]; ring

theorem resolved_velocity_includes_push_witness :
    (resolvePair Real.sqrt (⟨⟨0, 0⟩, ⟨1, 0⟩, ⟨0, 0⟩⟩ : Particle ℝ)
        ⟨⟨6, 8⟩, ⟨6, 9⟩, ⟨0, 0⟩⟩).1.pos.x
      - (resolvePair Real.sqrt (⟨⟨0, 0⟩, ⟨1, 0⟩, ⟨0, 0⟩⟩ : Particle ℝ)
        ⟨⟨6, 8⟩, ⟨6, 9⟩, ⟨0, 0⟩⟩).1.prev.x
      = 0.98 * (((0 : ℝ) - 1) + ((resolvePair Real.sqrt (⟨⟨0, 0⟩, ⟨1, 0⟩, ⟨0, 0⟩⟩ : Particle ℝ)
        ⟨⟨6, 8⟩, ⟨6, 9⟩, ⟨0, 0⟩⟩).1.pos.x - 0)) :=
  (resolved_velocity_includes_push Real.sqrt ⟨⟨0, 0⟩, ⟨1, 0⟩, ⟨0, 0⟩⟩ ⟨⟨6, 8⟩, ⟨6, 9⟩, ⟨0, 0⟩⟩
    (by rw [centreDistance_six_eight]; norm_num)
    (by rw [centreDistance_six_eight]; unfold diameter radius; norm_num)).1

/-- C16: on a list in which every pair of centres is at distance at least
`diameter`, `solveCollisions` changes nothing (`pos`, `prev` and `acc` of every
particle stay as they are). -/
theorem solveCollisions_identity_without_overlap (sqrt : α → α) (ps : List (Particle α))
    (h : ps.Pairwise fun p1 p2 => diameter ≤ centreDistance sqrt p1 p2) :
    solveCollisions sqrt ps = ps := by
  unfold solveCollisions
  refine foldl_invariant (fun qs => qs = ps) _ _ (fun qs _ _ hq => ?_) ps rfl
  unfold collisionPass
  refine foldl_invariant (fun rs => rs = ps) _ _ (fun rs i _ hr => ?_) qs hq
  unfold collideFrom
  refine foldl_invariant (fun ts => ts = ps) _ _ (fun ts j hj ht => ?_) rs hr
  have hij : i < j := by
    have := (List.mem_range'_1.mp hj).1
    omega
  show collideAt sqrt ts i j = ps
  rw [ht]
  exact collideAt_of_no_overlap sqrt ps h i j hij

theorem solveCollisions_identity_without_overlap_witness :
    solveCollisions Real.sqrt
        [(⟨⟨0, 0⟩, ⟨1, 1⟩, ⟨0, 0⟩⟩ : Particle ℝ), ⟨⟨30, 40⟩, ⟨29, 38⟩, ⟨0, 0⟩⟩]
      = [⟨⟨0, 0⟩, ⟨1, 1⟩, ⟨0, 0⟩⟩, ⟨⟨30, 40⟩, ⟨29, 38⟩, ⟨0, 0⟩⟩] :=
  solveCollisions_identity_without_overlap Real.sqrt _
    (List.pairwise_pair.mpr (by
      rw [centreDistance_thirty_forty]; unfold diameter radius; norm_num))

/-- C17: with `width >= 2 * radius`, after the boundary step a particle
satisfies `radius <= pos.x <= width - radius` and `pos.y <= height - radius`;
so does every particle at the end of a frame tick. -/
theorem boundary_contains_particles (sqrt : α → α) (width height gravity : α)
    (p : Particle α) (ps : List (Particle α)) (hw : 2 * radius ≤ width) :
    (radius ≤ (boundary width height gravity p).pos.x ∧
      (boundary width height gravity p).pos.x ≤ width - radius ∧
      (boundary width height gravity p).pos.y ≤ height - radius) ∧
    (∀ q ∈ animate sqrt width height gravity ps,
      radius ≤ q.pos.x ∧ q.pos.x ≤ width - radius ∧ q.pos.y ≤ height - radius) := by
  have hb := fun r => boundary_pos_bounds width height gravity r hw
  refine ⟨⟨(hb p).1, (hb p).2.1, (hb p).2.2.1⟩, fun q hq => ?_⟩
  simp only [animate, List.mem_map] at hq
  obtain ⟨r, -, rfl⟩ := hq
  exact ⟨(hb r).1, (hb r).2.1, (hb r).2.2.1⟩

theorem boundary_contains_particles_witness :
    (radius ≤ (boundary 100 100 (0.35 : ℝ) ⟨⟨120, 130⟩, ⟨110, 125⟩, ⟨0, 0⟩⟩).pos.x ∧
      (boundary 100 100 (0.35 : ℝ) ⟨⟨120, 130⟩, ⟨110, 125⟩, ⟨0, 0⟩⟩).pos.x ≤ 100 - radius ∧
      (boundary 100 100 (0.35 : ℝ) ⟨⟨120, 130⟩, ⟨110, 125⟩, ⟨0, 0⟩⟩).pos.y ≤ 100 - radius) ∧
    (∀ q ∈ animate Real.sqrt 100 100 0.35 [⟨⟨120, 130⟩, ⟨110, 125⟩, ⟨0, 0⟩⟩],
      radius ≤ q.pos.x ∧ q.pos.x ≤ 100 - radius ∧ q.pos.y ≤ 100 - radius) :=
  boundary_contains_particles Real.sqrt 100 100 0.35 ⟨⟨120, 130⟩, ⟨110, 125⟩, ⟨0, 0⟩⟩
    [⟨⟨120, 130⟩, ⟨110, 125⟩, ⟨0, 0⟩⟩] (by unfold radius; norm_num)

/-- C18 (as stated, refuted): in a 100 by 100 viewport a particle above the
top edge, at `(50, -10)`, leaves the boundary step with `pos.y = -10 < 0`. -/
theorem boundary_no_ceiling :
    2 * radius ≤ (100 : ℚ) ∧
    ¬ (0 ≤ (boundary 100 100 (0.35 : ℚ) ⟨⟨50, -10⟩, ⟨50, -10⟩, ⟨0, 0⟩⟩).pos.x ∧
       (boundary 100 100 (0.35 : ℚ) ⟨⟨50, -10⟩, ⟨50, -10⟩, ⟨0, 0⟩⟩).pos.x ≤ 100 ∧
       0 ≤ (boundary 100 100 (0.35 : ℚ) ⟨⟨50, -10⟩, ⟨50, -10⟩, ⟨0, 0⟩⟩).pos.y ∧
       (boundary 100 100 (0.35 : ℚ) ⟨⟨50, -10⟩, ⟨50, -10⟩, ⟨0, 0⟩⟩).pos.y ≤ 100) := by
  simp only [boundary, radius]
  norm_num

/-- C18 (amended): with `width >= 2 * radius` and `height >= 2 * radius`, after
the boundary step `0 <= pos.x <= width` and `pos.y <= height`; there is no
clamp at the top, `0 <= pos.y` holds when it held on entry. -/
theorem boundary_clamps_three_sides (width height gravity : α) (p : Particle α)
    (hw : 2 * radius ≤ width) (hh : 2 * radius ≤ height) :
    0 ≤ (boundary width height gravity p).pos.x ∧
    (boundary width height gravity p).pos.x ≤ width ∧
    (boundary width height gravity p).pos.y ≤ height ∧
    (0 ≤ p.pos.y → 0 ≤ (boundary width height gravity p).pos.y) := by
  obtain ⟨h1, h2, h3, h4⟩ := boundary_pos_bounds width height gravity p hw
  have hr : (0 : α) < radius := by unfold radius; norm_num
  refine ⟨by linarith, by linarith, by linarith, fun h0 => ?_⟩
  rcases h4 with h4 | h4 <;> rw [h4]
  · exact h0
  · linarith

theorem boundary_clamps_three_sides_witness :
    0 ≤ (boundary 100 100 (0.35 : ℚ) ⟨⟨120, 30⟩, ⟨110, 25⟩, ⟨0, 0⟩⟩).pos.x ∧
    (boundary 100 100 (0.35 : ℚ) ⟨⟨120, 30⟩, ⟨110, 25⟩, ⟨0, 0⟩⟩).pos.x ≤ 100 ∧
    (boundary 100 100 (0.35 : ℚ) ⟨⟨120, 30⟩, ⟨110, 25⟩, ⟨0, 0⟩⟩).pos.y ≤ 100 ∧
    ((0 : ℚ) ≤ 30 → 0 ≤ (boundary 100 100 (0.35 : ℚ) ⟨⟨120, 30⟩, ⟨110, 25⟩, ⟨0, 0⟩⟩).pos.y) :=
  boundary_clamps_three_sides 100 100 0.35 ⟨⟨120, 30⟩, ⟨110, 25⟩, ⟨0, 0⟩⟩
    (by unfold radius; norm_num) (by unfold radius; norm_num)

end Claims

end Verlet
